import Mathlib

/-!
# gowiki: page store, path grammar and request handlers

A shallow embedding of `wiki.go`.  Go strings that the program inspects
(titles, request paths, the mount prefix, file names) are Lean strings; page
bodies and form values, which the program only moves around, are byte lists.
The operating system and the Go libraries the program calls (`ioutil`,
`net/http`, `regexp`, `html/template`) are modelled by the definitions of the
first sections; every function of `wiki.go` is then transcribed on top of them.

The Go variable `prefix` is spelled `pfx` here, since the Go name is a keyword.
-/

namespace Wiki

/-! ## Bytes and files (`ioutil.ReadFile`, `ioutil.WriteFile`) -/

/-- A byte sequence, the content of a Go `[]byte` (and of a Go string that is only copied). -/
abbrev Bytes := List UInt8

/-- The way a `WriteFile` call can fail: at `open` (nothing on disk changes),
or after the file was opened and truncated, with only the first `n` bytes
written. -/
inductive WriteFault where
  | atOpen (msg : String)
  | atWrite (msg : String) (n : Nat)
  deriving DecidableEq, Repr

/-- The message of the error value (`err.Error()`). -/
def WriteFault.Error : WriteFault → String
  | .atOpen msg => msg
  | .atWrite msg _ => msg

/-- The file system as the program sees it: the regular files by name, and the
operating system's decision, for a name and the data to write, to refuse the
write (missing directory, permissions, name too long, disk full). -/
structure FileSystem where
  files : String → Option Bytes
  fault : String → Bytes → Option WriteFault

/-- Replace the content stored under one name. -/
def FileSystem.put (fs : FileSystem) (name : String) (data : Bytes) : FileSystem :=
  { fs with files := fun n => if n = name then some data else fs.files n }

/-- `ioutil.ReadFile`: the whole content of the file, or an error when there
is no such file.  A file that is there can be read. -/
def ReadFile (fs : FileSystem) (filename : String) : Except String Bytes :=
  match fs.files filename with
  | some data => .ok data
  | none => .error ("open " ++ filename ++ ": no such file or directory")

/-- `ioutil.WriteFile`: create or truncate the file and write `data`.  The
result is the file system afterwards and the error, if any.  The permission
argument (`0600` in `wiki.go`) plays no part in the model. -/
def WriteFile (fs : FileSystem) (filename : String) (data : Bytes) :
    FileSystem × Option WriteFault :=
  match fs.fault filename data with
  | none => (fs.put filename data, none)
  | some (.atOpen msg) => (fs, some (.atOpen msg))
  | some (.atWrite msg n) => (fs.put filename (data.take n), some (.atWrite msg n))

/-! ## The page store -/

/-- Page represents a page in the Wiki. -/
structure Page where
  Prefix : String
  Title : String
  Body : Bytes
  deriving DecidableEq, Repr

def templatePath : String := "templates"

def pagesPath : String := "pages"

/-- `func (p *Page) save() error`. -/
def Page.save (fs : FileSystem) (p : Page) : FileSystem × Option WriteFault :=
  let filename := pagesPath ++ "/" ++ p.Title ++ ".txt"
  WriteFile fs filename p.Body

/-- `func loadPage(title string) (*Page, error)`; `pfx` is the global `prefix`. -/
def loadPage (pfx : String) (fs : FileSystem) (title : String) : Except String Page :=
  let filename := "pages/" ++ title ++ ".txt"
  match ReadFile fs filename with
  | .error err => .error err
  | .ok body => .ok { Prefix := pfx, Title := title, Body := body }

/-! ## Responses (`http.ResponseWriter`, `http.Error`, `http.Redirect`) -/

/-- What has been sent on a connection: the status code once the header is
out, the `Location` header, the body text, and the templates executed against
the writer, in order. -/
structure ResponseWriter where
  code : Option Nat
  location : Option String
  body : String
  executed : List (String × Page)
  deriving DecidableEq, Repr

/-- A writer on which nothing was sent yet. -/
def ResponseWriter.fresh : ResponseWriter :=
  { code := none, location := none, body := "", executed := [] }

def StatusOK : Nat := 200
def StatusFound : Nat := 302
def StatusNotFound : Nat := 404
def StatusInternalServerError : Nat := 500

/-- `w.WriteHeader(code)`: only the first call sends a status. -/
def ResponseWriter.WriteHeader (w : ResponseWriter) (code : Nat) : ResponseWriter :=
  match w.code with
  | none => { w with code := some code }
  | some _ => w

/-- `w.Write(data)`: sends status 200 first when no header is out. -/
def ResponseWriter.Write (w : ResponseWriter) (data : String) : ResponseWriter :=
  let w1 := w.WriteHeader StatusOK
  { w1 with body := w1.body ++ data }

/-- `http.Error(w, error, code)`: the status, then the message and a newline. -/
def httpError (w : ResponseWriter) (error : String) (code : Nat) : ResponseWriter :=
  (w.WriteHeader code).Write (error ++ "\n")

/-- `http.Redirect(w, r, url, code)`: the `Location` header set to the url
handed in, then the status.  The library's own rewriting of the url (a url
without leading `/` is resolved against the request path, `.` and `..` and
doubled `/` are cleaned away) and the short HTML body of a GET redirect are
left out. -/
def httpRedirect (w : ResponseWriter) (url : String) (code : Nat) : ResponseWriter :=
  ({ w with location := some url }).WriteHeader code

/-- A request, as far as the handlers read it: `r.URL.Path` and the parsed form. -/
structure Request where
  Path : String
  Form : List (String × Bytes)

/-- `r.FormValue(key)`: the first value of the field, empty when the field is absent. -/
def Request.FormValue (r : Request) (key : String) : Bytes :=
  match r.Form.find? (fun kv => kv.1 == key) with
  | some kv => kv.2
  | none => []

/-- The parsed template set: for a template name and a page, the text the
execution writes to the response and the error it ends with, if any. -/
abbrev Templates := String → Page → String × Option String

/-- `templates.ExecuteTemplate(w, name, p)`. -/
def ExecuteTemplate (t : Templates) (w : ResponseWriter) (name : String) (p : Page) :
    ResponseWriter × Option String :=
  let out := t name p
  let w1 := if out.1 = "" then w else w.Write out.1
  ({ w1 with executed := w1.executed ++ [(name, p)] }, out.2)

/-! ## Regular expressions (`regexp.MustCompile`, `FindStringSubmatch`)

The part of Go's RE2 syntax that the model reads: literals, `.`, `^`, `$`,
escaped punctuation, bracket classes of characters and ranges, capturing
groups, alternation and the repetitions `*`, `+`, `?` with their lazy forms.
A pattern that Go rejects, or that uses anything else (flags, `{n,m}`, `\d`,
named groups), does not compile in the model.  Matching is leftmost, with
Go's preference order among the matches at one start. -/

/-- The parsed form of a pattern. -/
inductive Re where
  | emp
  | lit (c : Char)
  | any
  | cls (neg : Bool) (rs : List (Char × Char))
  | bot
  | eot
  | cap (i : Nat) (r : Re)
  | seq (a b : Re)
  | alt (a b : Re)
  | star (greedy : Bool) (r : Re)
  | plus (greedy : Bool) (r : Re)
  | quest (greedy : Bool) (r : Re)
  deriving DecidableEq, Repr

/-- A group under construction: its capture index (0 for the whole pattern),
the alternatives already closed by `|` and the pieces of the current one,
both latest first. -/
structure Frame where
  idx : Nat
  alts : List Re
  items : List Re
  deriving DecidableEq, Repr

/-- Where the parser is: between pieces (`rep` is 0, or 1 after a repetition
operator, or 2 after its lazy mark), after a backslash, or inside a bracket class. -/
inductive Mode where
  | normal (rep : Nat)
  | escape
  | clsStart
  | clsBody (neg : Bool) (rs : List (Char × Char)) (pend : Option Char)
  | clsDash (neg : Bool) (rs : List (Char × Char)) (lo : Char)
  deriving DecidableEq, Repr

/-- The parser state: the innermost open group, the groups around it, the
number of capturing groups opened so far, and the mode. -/
structure Parser where
  top : Frame
  stack : List Frame
  ncap : Nat
  mode : Mode
  deriving DecidableEq, Repr

/-- The concatenation of pieces given latest first. -/
def mkSeq (items : List Re) : Re :=
  items.foldl (fun acc r => Re.seq r acc) Re.emp

/-- The alternation of `cur`, the last alternative, with the earlier ones (latest first). -/
def mkAlt (cur : Re) (alts : List Re) : Re :=
  alts.foldl (fun acc a => Re.alt a acc) cur

def Frame.close (f : Frame) : Re :=
  mkAlt (mkSeq f.items) f.alts

def Frame.push (f : Frame) (r : Re) : Frame :=
  { f with items := r :: f.items }

/-- ASCII letters and digits: after a backslash they start an escape sequence
instead of standing for themselves. -/
def isalnum (c : Char) : Bool :=
  ('0' ≤ c && c ≤ '9') || ('A' ≤ c && c ≤ 'Z') || ('a' ≤ c && c ≤ 'z')

/-- The lazy form of a repetition (`x*?`, `x+?`, `x??`). -/
def lazyOf : Re → Option Re
  | .star _ r => some (.star false r)
  | .plus _ r => some (.plus false r)
  | .quest _ r => some (.quest false r)
  | _ => none

/-- The greedy repetition written with the operator `c`. -/
def repeatOf (c : Char) (r : Re) : Re :=
  if c = '*' then .star true r else if c = '+' then .plus true r else .quest true r

/-- Append a finished piece to the innermost group. -/
def Parser.item (p : Parser) (r : Re) : Option Parser :=
  some { p with top := p.top.push r, mode := .normal 0 }

/-- Read one character of the pattern; `none` when the pattern is refused. -/
def Parser.step (p : Parser) (c : Char) : Option Parser :=
  match p.mode with
  | .escape =>
    if c.toNat < 128 && !isalnum c then p.item (.lit c) else none
  | .clsStart =>
    if c = '^' then some { p with mode := .clsBody true [] none }
    else if c = ']' || c = '\\' || c = '[' || c = '-' then none
    else some { p with mode := .clsBody false [] (some c) }
  | .clsBody neg rs pend =>
    if c = ']' then
      match rs, pend with
      | [], none => none
      | _, none => p.item (.cls neg rs)
      | _, some a => p.item (.cls neg (rs ++ [(a, a)]))
    else if c = '\\' || c = '[' then none
    else if c = '-' then
      match pend with
      | some lo => some { p with mode := .clsDash neg rs lo }
      | none => none
    else
      match pend with
      | some a => some { p with mode := .clsBody neg (rs ++ [(a, a)]) (some c) }
      | none => some { p with mode := .clsBody neg rs (some c) }
  | .clsDash neg rs lo =>
    if c = ']' || c = '\\' || c = '[' || c = '-' then none
    else if lo ≤ c then some { p with mode := .clsBody neg (rs ++ [(lo, c)]) none }
    else none
  | .normal rep =>
    if c = '\\' then some { p with mode := .escape }
    else if c = '(' then
      some { top := { idx := p.ncap + 1, alts := [], items := [] },
             stack := p.top :: p.stack, ncap := p.ncap + 1, mode := .normal 0 }
    else if c = ')' then
      match p.stack with
      | [] => none
      | f :: fs =>
        some { top := f.push (.cap p.top.idx p.top.close), stack := fs, ncap := p.ncap,
               mode := .normal 0 }
    else if c = '|' then
      some { p with top := { p.top with alts := mkSeq p.top.items :: p.top.alts, items := [] },
                    mode := .normal 0 }
    else if c = '*' || c = '+' || c = '?' then
      match p.top.items with
      | [] => none
      | r :: rs =>
        if rep = 0 then
          some { p with top := { p.top with items := repeatOf c r :: rs }, mode := .normal 1 }
        else if rep = 1 && c = '?' then
          match lazyOf r with
          | some r1 => some { p with top := { p.top with items := r1 :: rs }, mode := .normal 2 }
          | none => none
        else none
    else if c = '[' then some { p with mode := .clsStart }
    else if c = '{' then none
    else if c = '.' then p.item .any
    else if c = '^' then p.item .bot
    else if c = '$' then p.item .eot
    else p.item (.lit c)

/-- Read the characters of a pattern in order. -/
def Parser.run (p : Parser) : List Char → Option Parser
  | [] => some p
  | c :: cs => match p.step c with
    | some q => q.run cs
    | none => none

def Parser.init : Parser :=
  { top := { idx := 0, alts := [], items := [] }, stack := [], ncap := 0, mode := .normal 0 }

/-- A compiled pattern (`*regexp.Regexp`): its parsed form and the number of capturing groups. -/
structure Regexp where
  prog : Re
  numSubexp : Nat
  deriving DecidableEq, Repr

/-- The end of the pattern: every group closed, no escape or class left open. -/
def Parser.finish (p : Parser) : Option Regexp :=
  match p.mode, p.stack with
  | .normal _, [] => some { prog := p.top.close, numSubexp := p.ncap }
  | _, _ => none

/-- `regexp.MustCompile(expr)`; `none` where Go panics (or the model does not read the pattern). -/
def MustCompile (expr : String) : Option Regexp :=
  match Parser.init.run expr.data with
  | some p => p.finish
  | none => none

/-- A point in a match: the offset in the text, the text still ahead, and the
groups captured so far (latest first). -/
structure Cfg where
  pos : Nat
  rest : List Char
  caps : List (Nat × List Char)
  deriving DecidableEq, Repr

/-- Consume one character that satisfies `ok`. -/
def Cfg.next (c : Cfg) (ok : Char → Bool) : List Cfg :=
  match c.rest with
  | d :: t => if ok d then [{ pos := c.pos + 1, rest := t, caps := c.caps }] else []
  | [] => []

/-- Membership of a character in a bracket class. -/
def inClass (neg : Bool) (rs : List (Char × Char)) (d : Char) : Bool :=
  (rs.any fun r => r.1 ≤ d && d ≤ r.2) != neg

/-- Zero or more rounds of `body`, in preference order; a round that consumes
nothing ends the repetition.  Every further round starts on a shorter text, so
a count above the length of the text never runs out. -/
def loop : Nat → Bool → (Cfg → List Cfg) → Cfg → List Cfg
  | 0, _, _, c => [c]
  | n + 1, greedy, body, c =>
    let more := (body c).flatMap fun c1 =>
      if c1.rest.length < c.rest.length then loop n greedy body c1 else [c1]
    if greedy then more ++ [c] else c :: more

/-- All the ways the pattern matches at a point, most preferred first. -/
def Re.run : Re → Cfg → List Cfg
  | .emp, c => [c]
  | .lit a, c => c.next (fun d => d = a)
  | .any, c => c.next (fun d => d ≠ '\n')
  | .cls neg rs, c => c.next (inClass neg rs)
  | .bot, c => if c.pos = 0 then [c] else []
  | .eot, c => match c.rest with
    | [] => [c]
    | _ :: _ => []
  | .cap i r, c =>
    (r.run c).map fun c1 => { c1 with caps := (i, c.rest.take (c1.pos - c.pos)) :: c1.caps }
  | .seq a b, c => (a.run c).flatMap fun c1 => b.run c1
  | .alt a b, c => a.run c ++ b.run c
  | .star g r, c => loop (c.rest.length + 1) g (fun x => r.run x) c
  | .plus g r, c =>
    (r.run c).flatMap fun c1 => loop (c1.rest.length + 1) g (fun x => r.run x) c1
  | .quest g r, c => if g then r.run c ++ [c] else c :: r.run c

/-- The text of group `i`, empty when the group took no part in the match. -/
def group (caps : List (Nat × List Char)) (i : Nat) : String :=
  match caps.find? (fun kv => kv.1 == i) with
  | some kv => String.mk kv.2
  | none => ""

/-- The leftmost match from offset `pos` on: the matched text, then the groups. -/
def Regexp.search (re : Regexp) (pos : Nat) : List Char → Option (List String)
  | [] => match (re.prog.run { pos := pos, rest := [], caps := [] }).head? with
    | some c1 => some ("" :: (List.range re.numSubexp).map fun i => group c1.caps (i + 1))
    | none => none
  | d :: t => match (re.prog.run { pos := pos, rest := d :: t, caps := [] }).head? with
    | some c1 => some (String.mk ((d :: t).take (c1.pos - pos)) ::
        (List.range re.numSubexp).map fun i => group c1.caps (i + 1))
    | none => re.search (pos + 1) t

/-- `re.FindStringSubmatch(s)`: `none` is Go's `nil`. -/
def Regexp.FindStringSubmatch (re : Regexp) (s : String) : Option (List String) :=
  re.search 0 s.data

/-! ## The handlers of `wiki.go` -/

/-- The program state a handler runs in: the global `prefix` and the parsed templates. -/
structure Config where
  pfx : String
  templates : Templates

/-- The type of the three page handlers: from the file system, the writer,
the request and the title to the file system and the writer afterwards. -/
abbrev PageHandler :=
  FileSystem → ResponseWriter → Request → String → FileSystem × ResponseWriter

/-- `func renderTemplate(w http.ResponseWriter, tmpl string, p *Page)`. -/
def renderTemplate (cfg : Config) (w : ResponseWriter) (tmpl : String) (p : Page) :
    ResponseWriter :=
  match ExecuteTemplate cfg.templates w (tmpl ++ ".html") p with
  | (w1, some err) => httpError w1 err StatusInternalServerError
  | (w1, none) => w1

/-- `func viewHandler(w http.ResponseWriter, r *http.Request, title string)`. -/
def viewHandler (cfg : Config) : PageHandler := fun fs w _r title =>
  match loadPage cfg.pfx fs title with
  | .error _ => (fs, httpRedirect w (cfg.pfx ++ "/edit/" ++ title) StatusFound)
  | .ok p => (fs, renderTemplate cfg w "view" p)

/-- `func editHandler(w http.ResponseWriter, r *http.Request, title string)`. -/
def editHandler (cfg : Config) : PageHandler := fun fs w _r title =>
  match loadPage cfg.pfx fs title with
  | .error _ => (fs, renderTemplate cfg w "edit" { Prefix := cfg.pfx, Title := title, Body := [] })
  | .ok p => (fs, renderTemplate cfg w "edit" p)

/-- `func saveHandler(w http.ResponseWriter, r *http.Request, title string)`. -/
def saveHandler (cfg : Config) : PageHandler := fun fs w r title =>
  let body := r.FormValue "body"
  let p : Page := { Prefix := cfg.pfx, Title := title, Body := body }
  match p.save fs with
  | (fs1, some err) => (fs1, httpError w err.Error StatusInternalServerError)
  | (fs1, none) => (fs1, httpRedirect w (cfg.pfx ++ "/view/" ++ title) StatusFound)

/-- `func notFoundHandler(w http.ResponseWriter, r *http.Request)`. -/
def notFoundHandler (w : ResponseWriter) (r : Request) : ResponseWriter :=
  httpError w r.Path StatusInternalServerError

/-- The value `main` gives the global `validPath`:
`regexp.MustCompile("^" + prefix + "/(edit|save|view)/([a-zA-Z0-9]+)$")`. -/
def validPath (pfx : String) : Option Regexp :=
  MustCompile ("^" ++ pfx ++ "/(edit|save|view)/([a-zA-Z0-9]+)$")

/-- `func makeHandler(fn func(http.ResponseWriter, *http.Request, string)) http.HandlerFunc`,
with the global `validPath` as first argument.  `none` is the run-time panic
of `m[2]` on a slice shorter than three. -/
def makeHandler (validPath : Regexp) (fn : PageHandler) :
    FileSystem → ResponseWriter → Request → Option (FileSystem × ResponseWriter) :=
  fun fs w r =>
    match validPath.FindStringSubmatch r.Path with
    | none => some (fs, httpError w r.Path StatusNotFound)
    | some m =>
      match m[2]? with
      | some title => some (fn fs w r title)
      | none => none

/-! ## Dispatch (`http.HandleFunc`, the default `ServeMux`) -/

/-- The four handlers `main` registers. -/
inductive Route where
  | view
  | edit
  | save
  | notFound
  deriving DecidableEq, Repr

/-- `strings.HasPrefix(s, p)`. -/
def HasPrefix (s p : String) : Bool :=
  p.data.isPrefixOf s.data

/-- The registrations of `main`, in order: pattern and handler. -/
def registrations (pfx : String) : List (String × Route) :=
  [(pfx ++ "/view/", .view), (pfx ++ "/edit/", .edit), (pfx ++ "/save/", .save),
   ("/", .notFound)]

/-- The handler the mux picks for a path: every pattern here ends in `/` and
stands for the paths that begin with it, and the longest such pattern wins.
The mux's own redirects (a path that is not in canonical form, a subtree root
without its final `/`) and host-specific patterns are outside the model. -/
def ServeMux.Handler (entries : List (String × Route)) (path : String) : Option Route :=
  let pick := entries.foldl (fun (best : Option (String × Route)) e =>
    if HasPrefix path e.1 then
      match best with
      | some b => if b.1.length < e.1.length then some e else best
      | none => some e
    else best) none
  pick.map fun e => e.2

/-- One request against the running server: the mux picks a registered
handler, which answers on a fresh writer.  With no pattern for the path the
mux itself answers `404 page not found`. -/
def ServeHTTP (cfg : Config) (validPath : Regexp) (fs : FileSystem) (r : Request) :
    Option (FileSystem × ResponseWriter) :=
  match ServeMux.Handler (registrations cfg.pfx) r.Path with
  | some .view => makeHandler validPath (viewHandler cfg) fs .fresh r
  | some .edit => makeHandler validPath (editHandler cfg) fs .fresh r
  | some .save => makeHandler validPath (saveHandler cfg) fs .fresh r
  | some .notFound => some (fs, notFoundHandler .fresh r)
  | none => some (fs, httpError .fresh "404 page not found" StatusNotFound)

/-! ## The grammar of the specification -/

/-- The class `[a-zA-Z0-9]`. -/
def alnum (c : Char) : Bool :=
  inClass false [('a', 'z'), ('A', 'Z'), ('0', '9')] c

/-- A title in the sense of the specification: a string matching `[a-zA-Z0-9]+`. -/
def isTitle (t : String) : Prop :=
  t.data ≠ [] ∧ ∀ c ∈ t.data, alnum c = true

instance (t : String) : Decidable (isTitle t) := by
  unfold isTitle
  infer_instance

/-- The three action words. -/
def actions : List String := ["view", "edit", "save"]

/-- The file the specification assigns to a title: `<Title>.txt` in the storage directory. -/
def pageFile (title : String) : String :=
  "pages/" ++ title ++ ".txt"

/-- The handler that `main` registers for the route of an action word. -/
def routeOf (a : String) : Route :=
  if a = "view" then .view else if a = "edit" then .edit else .save

/-- The page handler behind a route of `main`. -/
def handlerOf (cfg : Config) (a : String) : PageHandler :=
  if a = "view" then viewHandler cfg else if a = "edit" then editHandler cfg
  else saveHandler cfg

/-! ## The pattern of a prefix without operators -/

/-- The characters that `regexp.QuoteMeta` escapes. -/
def special (c : Char) : Bool :=
  ['\\', '.', '+', '*', '?', '(', ')', '|', '[', ']', '{', '}', '^', '$'].contains c

/-- A prefix that reads the same as a pattern and as a string. -/
def literal (pfx : String) : Prop :=
  ∀ c ∈ pfx.data, special c = false

instance (pfx : String) : Decidable (literal pfx) := by
  unfold literal
  infer_instance

/-- The pattern that matches the characters `cs` in a row and then `r`. -/
def litSeq (cs : List Char) (r : Re) : Re :=
  cs.foldr (fun c acc => .seq (.lit c) acc) r

/-- The parsed form of `(edit|save|view)`, without its group. -/
def actionRe : Re :=
  .alt (litSeq "edit".data .emp) (.alt (litSeq "save".data .emp) (litSeq "view".data .emp))

/-- The parsed form of `([a-zA-Z0-9]+)$`. -/
def tokenRe : Re :=
  .seq (.cap 2 (.seq (.plus true (.cls false [('a', 'z'), ('A', 'Z'), ('0', '9')])) .emp))
    (.seq .eot .emp)

/-- The parsed form of `/(edit|save|view)/([a-zA-Z0-9]+)$`. -/
def tailRe : Re :=
  .seq (.lit '/') (.seq (.cap 1 actionRe) (.seq (.lit '/') tokenRe))

/-! ## Sample states -/

/-- A file system holding the given files, on which every write succeeds. -/
def diskOf (entries : List (String × Bytes)) : FileSystem :=
  { files := fun n => (entries.find? fun e => e.1 == n).map fun e => e.2
    fault := fun _ _ => none }

/-- A file system holding the given files, on which every write is refused at `open`. -/
def readOnlyDiskOf (entries : List (String × Bytes)) (msg : String) : FileSystem :=
  { files := fun n => (entries.find? fun e => e.1 == n).map fun e => e.2
    fault := fun _ _ => some (.atOpen msg) }

/-- A template set that writes nothing and never fails. -/
def quietTemplates : Templates := fun _ _ => ("", none)

/-! ## The page store: file names, round trip -/

theorem save_file_name (title : String) :
    pagesPath ++ "/" ++ title ++ ".txt" = pageFile title := by
  apply String.ext
  simp [pagesPath, pageFile, String.data_append]

theorem pageFile_data (title : String) :
    (pageFile title).data = "pages/".data ++ (title.data ++ ".txt".data) := by
  simp [pageFile, String.data_append]

theorem pageFile_injective (t u : String) (h : pageFile t = pageFile u) : t = u := by
  have hd := congrArg String.data h
  rw [pageFile_data, pageFile_data] at hd
  exact String.ext (List.append_cancel_right (List.append_cancel_left hd))

theorem save_eq_WriteFile (fs : FileSystem) (p : Page) :
    p.save fs = WriteFile fs (pageFile p.Title) p.Body := by
  simp [Page.save, save_file_name]

theorem loadPage_eq (pfx : String) (fs : FileSystem) (title : String) :
    loadPage pfx fs title =
      match fs.files (pageFile title) with
      | some body => .ok { Prefix := pfx, Title := title, Body := body }
      | none => .error ("open " ++ pageFile title ++ ": no such file or directory") := by
  unfold loadPage ReadFile pageFile
  dsimp only
  cases fs.files ("pages/" ++ title ++ ".txt") <;> rfl

theorem put_files_same (fs : FileSystem) (name : String) (data : Bytes) :
    (fs.put name data).files name = some data := by
  simp [FileSystem.put]

theorem put_files_other (fs : FileSystem) (name other : String) (data : Bytes)
    (h : other ≠ name) : (fs.put name data).files other = fs.files other := by
  simp [FileSystem.put, h]

theorem WriteFile_ok (fs : FileSystem) (name : String) (data : Bytes)
    (h : (WriteFile fs name data).2 = none) :
    (WriteFile fs name data).1 = fs.put name data := by
  unfold WriteFile at h ⊢
  cases hf : fs.fault name data with
  | none => rfl
  | some e => cases e <;> simp [hf] at h

theorem WriteFile_files_other (fs : FileSystem) (name other : String) (data : Bytes)
    (h : other ≠ name) : (WriteFile fs name data).1.files other = fs.files other := by
  unfold WriteFile
  cases hf : fs.fault name data with
  | none => exact put_files_other fs name other data h
  | some e =>
    cases e with
    | atOpen msg => rfl
    | atWrite msg n => exact put_files_other fs name other _ h

/-- C1 (round trip, last write wins): for a title matching `[a-zA-Z0-9]+`, any
body and any prior file system, if `Page.save` returns no error, then
`loadPage` of the same title on the resulting file system succeeds with the
page of that title whose body is exactly the bytes saved. -/
theorem save_then_load (pfx : String) (fs : FileSystem) (p : Page)
    (ht : isTitle p.Title) (hs : (p.save fs).2 = none) :
    loadPage pfx (p.save fs).1 p.Title =
      .ok { Prefix := pfx, Title := p.Title, Body := p.Body } := by
  have _ := ht
  rw [save_eq_WriteFile] at hs ⊢
  rw [WriteFile_ok fs _ _ hs, loadPage_eq, put_files_same]

theorem isTitle_test : isTitle "test" := by
  decide

/-- Saving the body `new` over the earlier body `old` of the page `test` and loading it back. -/
theorem save_then_load_witness :
    isTitle "test" ∧
    (diskOf [("pages/test.txt", [111, 108, 100])]).files "pages/test.txt" = some [111, 108, 100] ∧
    (Page.save (diskOf [("pages/test.txt", [111, 108, 100])])
      { Prefix := "", Title := "test", Body := [110, 101, 119] }).2 = none ∧
    loadPage "/wiki" (Page.save (diskOf [("pages/test.txt", [111, 108, 100])])
      { Prefix := "", Title := "test", Body := [110, 101, 119] }).1 "test" =
      .ok { Prefix := "/wiki", Title := "test", Body := [110, 101, 119] } :=
  ⟨isTitle_test, by decide, rfl,
   save_then_load "/wiki" (diskOf [("pages/test.txt", [111, 108, 100])])
     { Prefix := "", Title := "test", Body := [110, 101, 119] } isTitle_test rfl⟩

/-! ## The three handlers -/

theorem httpRedirect_fresh (url : String) (code : Nat) :
    httpRedirect .fresh url code =
      { code := some code, location := some url, body := "", executed := [] } := rfl

theorem httpError_fresh (msg : String) (code : Nat) :
    httpError .fresh msg code =
      { code := some code, location := none, body := "" ++ (msg ++ "\n"), executed := [] } := rfl

/-- C4 (view of a missing page): whenever `loadPage` fails for the title,
`viewHandler` leaves the file system as it is and answers with status 302
and `Location` set to prefix + "/edit/" + title; no template is executed and
nothing else is sent, so the status is not 500. -/
theorem viewHandler_missing (cfg : Config) (fs : FileSystem) (r : Request) (title err : String)
    (h : loadPage cfg.pfx fs title = .error err) :
    viewHandler cfg fs .fresh r title =
      (fs, { code := some 302, location := some (cfg.pfx ++ "/edit/" ++ title), body := "",
             executed := [] }) ∧
    (viewHandler cfg fs .fresh r title).2.code ≠ some 500 := by
  have hv : viewHandler cfg fs .fresh r title =
      (fs, httpRedirect .fresh (cfg.pfx ++ "/edit/" ++ title) StatusFound) := by
    simp [viewHandler, h]
  rw [hv, httpRedirect_fresh]
  exact ⟨rfl, by simp [StatusFound]⟩

/-- With the empty prefix and no file on disk, a view of `missing` redirects to `/edit/missing`. -/
theorem viewHandler_missing_witness :
    loadPage "" (diskOf []) "missing" =
      .error "open pages/missing.txt: no such file or directory" ∧
    viewHandler { pfx := "", templates := quietTemplates } (diskOf [])
      .fresh { Path := "/view/missing", Form := [] } "missing" =
      (diskOf [], { code := some 302, location := some "/edit/missing", body := "",
                    executed := [] }) :=
  ⟨rfl, (viewHandler_missing { pfx := "", templates := quietTemplates } (diskOf [])
    { Path := "/view/missing", Form := [] } "missing"
    "open pages/missing.txt: no such file or directory" rfl).1⟩

/-- C6 (save outcome): `saveHandler` hands to `Page.save` the page of the
title whose body is the form field `body` (empty when the field is absent).
If the write returns no error, the file of the title then holds exactly those
bytes and the answer is status 302 with `Location` prefix + "/view/" + title;
if the write returns an error, the answer is status 500 with the error's
message as body and no `Location`. -/
theorem saveHandler_outcome (cfg : Config) (fs : FileSystem) (r : Request) (title : String) :
    ((r.Form.find? fun kv => kv.1 == "body") = none → r.FormValue "body" = []) ∧
    ((Page.save fs { Prefix := cfg.pfx, Title := title, Body := r.FormValue "body" }).2 = none →
      (saveHandler cfg fs .fresh r title).1.files (pageFile title) = some (r.FormValue "body") ∧
      loadPage cfg.pfx (saveHandler cfg fs .fresh r title).1 title =
        .ok { Prefix := cfg.pfx, Title := title, Body := r.FormValue "body" } ∧
      (saveHandler cfg fs .fresh r title).2 =
        { code := some 302, location := some (cfg.pfx ++ "/view/" ++ title), body := "",
          executed := [] }) ∧
    (∀ e, (Page.save fs { Prefix := cfg.pfx, Title := title, Body := r.FormValue "body" }).2 =
        some e →
      (saveHandler cfg fs .fresh r title).2 =
        { code := some 500, location := none, body := e.Error ++ "\n", executed := [] }) := by
  refine ⟨fun h => by simp [Request.FormValue, h], fun h => ?_, fun e h => ?_⟩
  · have hs : saveHandler cfg fs .fresh r title =
        ((Page.save fs { Prefix := cfg.pfx, Title := title, Body := r.FormValue "body" }).1,
          httpRedirect .fresh (cfg.pfx ++ "/view/" ++ title) StatusFound) := by
      unfold saveHandler
      dsimp only
      rcases hp : Page.save fs { Prefix := cfg.pfx, Title := title, Body := r.FormValue "body" }
        with ⟨fs1, err⟩
      rw [hp] at h
      dsimp only at h
      subst h
      rfl
    rw [hs, httpRedirect_fresh]
    dsimp only
    rw [save_eq_WriteFile] at h ⊢
    rw [WriteFile_ok fs _ _ h, loadPage_eq, put_files_same]
    exact ⟨rfl, rfl, rfl⟩
  · have hs : saveHandler cfg fs .fresh r title =
        ((Page.save fs { Prefix := cfg.pfx, Title := title, Body := r.FormValue "body" }).1,
          httpError .fresh e.Error StatusInternalServerError) := by
      unfold saveHandler
      dsimp only
      rcases hp : Page.save fs { Prefix := cfg.pfx, Title := title, Body := r.FormValue "body" }
        with ⟨fs1, err⟩
      rw [hp] at h
      dsimp only at h
      subst h
      rfl
    rw [hs, httpError_fresh]
    simp [StatusInternalServerError]

/-- The scenario of the specification (prefix empty, title `test`, body `Hello`), a request
without the field, and the same request on a disk that refuses the write. -/
theorem saveHandler_outcome_witness :
    Request.FormValue { Path := "/save/test", Form := [] } "body" = [] ∧
    ((saveHandler { pfx := "", templates := quietTemplates } (diskOf []) .fresh
        { Path := "/save/test", Form := [("body", [72, 101, 108, 108, 111])] } "test").1.files
        "pages/test.txt" = some [72, 101, 108, 108, 111] ∧
      (saveHandler { pfx := "", templates := quietTemplates } (diskOf []) .fresh
        { Path := "/save/test", Form := [("body", [72, 101, 108, 108, 111])] } "test").2 =
        { code := some 302, location := some "/view/test", body := "", executed := [] }) ∧
    (saveHandler { pfx := "", templates := quietTemplates } (readOnlyDiskOf [] "disk full") .fresh
        { Path := "/save/test", Form := [("body", [72, 101, 108, 108, 111])] } "test").2 =
        { code := some 500, location := none, body := "disk full\n", executed := [] } :=
  ⟨(saveHandler_outcome { pfx := "", templates := quietTemplates } (diskOf [])
      { Path := "/save/test", Form := [] } "test").1 rfl,
   ⟨((saveHandler_outcome { pfx := "", templates := quietTemplates } (diskOf [])
      { Path := "/save/test", Form := [("body", [72, 101, 108, 108, 111])] } "test").2.1 rfl).1,
    ((saveHandler_outcome { pfx := "", templates := quietTemplates } (diskOf [])
      { Path := "/save/test", Form := [("body", [72, 101, 108, 108, 111])] } "test").2.1
        rfl).2.2⟩,
   (saveHandler_outcome { pfx := "", templates := quietTemplates }
      (readOnlyDiskOf [] "disk full")
      { Path := "/save/test", Form := [("body", [72, 101, 108, 108, 111])] } "test").2.2
      (.atOpen "disk full") rfl⟩

/-- C8 (view and edit are read-only): for every configuration, file system,
writer, request and title, `viewHandler` and `editHandler` return the file
system they were given, whatever `loadPage` and the templates do; `saveHandler`
does not share this: on the empty disk it creates `pages/test.txt`. -/
theorem view_edit_read_only :
    (∀ (cfg : Config) (fs : FileSystem) (w : ResponseWriter) (r : Request) (title : String),
      (viewHandler cfg fs w r title).1 = fs ∧ (editHandler cfg fs w r title).1 = fs) ∧
    (diskOf []).files "pages/test.txt" = none ∧
    (saveHandler { pfx := "", templates := quietTemplates } (diskOf []) .fresh
      { Path := "/save/test", Form := [("body", [72, 101, 108, 108, 111])] } "test").1.files
      "pages/test.txt" = some [72, 101, 108, 108, 111] := by
  refine ⟨fun cfg fs w r title => ⟨?_, ?_⟩, rfl, rfl⟩
  · unfold viewHandler
    cases loadPage cfg.pfx fs title <;> rfl
  · unfold editHandler
    cases loadPage cfg.pfx fs title <;> rfl

/-! ## Titles and file names -/

theorem alnum_not_slash (c : Char) (h : alnum c = true) : c ≠ '/' := by
  rintro rfl
  revert h
  decide

/-- C10 (title-to-file mapping): `Page.save` writes, and `loadPage` reads, the
one file `"pages/" + title + ".txt"`; for a title matching `[a-zA-Z0-9]+` the
part after `pages/` has no `/` and is not `..`; two titles with the same file
name are equal; and saving a page, with or without error, leaves what
`loadPage` returns for every other title as it was. -/
theorem title_file_mapping (pfx : String) (fs : FileSystem) (p : Page) (ht : isTitle p.Title) :
    p.save fs = WriteFile fs ("pages/" ++ p.Title ++ ".txt") p.Body ∧
    loadPage pfx fs p.Title =
      (match ReadFile fs ("pages/" ++ p.Title ++ ".txt") with
       | .error err => .error err
       | .ok body => .ok { Prefix := pfx, Title := p.Title, Body := body }) ∧
    '/' ∉ (p.Title ++ ".txt").data ∧ p.Title ++ ".txt" ≠ ".." ∧
    (∀ u : String, "pages/" ++ u ++ ".txt" = "pages/" ++ p.Title ++ ".txt" → u = p.Title) ∧
    (∀ u : String, u ≠ p.Title → loadPage pfx (p.save fs).1 u = loadPage pfx fs u) := by
  refine ⟨save_eq_WriteFile fs p, rfl, ?_, ?_, fun u hu => pageFile_injective u p.Title hu, ?_⟩
  · rw [String.data_append, List.mem_append]
    rintro (h | h)
    · exact alnum_not_slash _ (ht.2 _ h) rfl
    · revert h
      decide
  · intro h
    have hd := congrArg String.data h
    rw [String.data_append] at hd
    have hl := congrArg List.length hd
    simp at hl
  · intro u hu
    rw [save_eq_WriteFile, loadPage_eq, loadPage_eq,
      WriteFile_files_other fs (pageFile p.Title) (pageFile u) p.Body
        (fun h => hu (pageFile_injective u p.Title h))]

/-- Saving `test` on a disk that holds `other` leaves the page `other` as it was. -/
theorem title_file_mapping_witness :
    isTitle "test" ∧ "pages/test.txt" ≠ "pages/other.txt" ∧
    loadPage "" (Page.save (diskOf [("pages/other.txt", [1, 2])])
      { Prefix := "", Title := "test", Body := [3] }).1 "other" =
      .ok { Prefix := "", Title := "other", Body := [1, 2] } :=
  ⟨isTitle_test,
   fun h => absurd ((title_file_mapping "" (diskOf [])
      { Prefix := "", Title := "other", Body := [] } (by decide)).2.2.2.2.1 "test" h)
      (by decide),
   ((title_file_mapping "" (diskOf [("pages/other.txt", [1, 2])])
      { Prefix := "", Title := "test", Body := [3] } isTitle_test).2.2.2.2.2 "other"
      (by decide)).trans rfl⟩

/-! ## Parsing the pattern of a prefix without operators -/

theorem step_literal (p : Parser) (c : Char) (hm : p.mode = .normal 0)
    (hc : special c = false) : p.step c = p.item (.lit c) := by
  simp only [special, List.contains_cons, List.contains_nil, Bool.or_false, Bool.or_eq_false_iff,
    beq_eq_false_iff_ne, ne_eq] at hc
  obtain ⟨h1, h2, h3, h4, h5, h6, h7, h8, h9, _, h11, _, h13, h14⟩ := hc
  unfold Parser.step
  rw [hm]
  simp [h1, h2, h3, h4, h5, h6, h7, h8, h9, h11, h13, h14]

theorem run_append (a b : List Char) (p : Parser) :
    p.run (a ++ b) = (p.run a).bind fun q => q.run b := by
  induction a generalizing p with
  | nil => rfl
  | cons c cs ih =>
    simp only [List.cons_append, Parser.run]
    cases p.step c with
    | none => rfl
    | some q => exact ih q

theorem run_literal (cs : List Char) (hcs : ∀ c ∈ cs, special c = false) (p : Parser)
    (hm : p.mode = .normal 0) :
    p.run cs =
      some { p with top := { p.top with items := (cs.map Re.lit).reverse ++ p.top.items } } := by
  induction cs generalizing p with
  | nil => simp [Parser.run]
  | cons c cs ih =>
    rw [Parser.run, step_literal p c hm (hcs c (List.mem_cons_self _ _))]
    simp only [Parser.item]
    rw [ih (fun d hd => hcs d (List.mem_cons_of_mem _ hd)) _ rfl]
    simp [Frame.push, hm]

theorem run_suffix (items : List Re) :
    Parser.run { top := { idx := 0, alts := [], items := items }, stack := [], ncap := 0,
                 mode := .normal 0 } "/(edit|save|view)/([a-zA-Z0-9]+)$".data =
      some { top := { idx := 0, alts := [],
                      items := .eot ::
                        .cap 2 (.seq (.plus true (.cls false [('a', 'z'), ('A', 'Z'), ('0', '9')]))
                          .emp) :: .lit '/' :: .cap 1 actionRe :: .lit '/' :: items },
             stack := [], ncap := 2, mode := .normal 0 } := rfl

theorem mkSeq_literal (cs : List Char) (r : Re) :
    ((cs.map Re.lit).reverse).foldl (fun acc x => Re.seq x acc) r = litSeq cs r := by
  simp [litSeq, List.foldl_reverse, List.foldr_map]

/-- The pattern of a prefix without operators: the start of the text, the
characters of the prefix, then the action group, the token group and the end. -/
theorem validPath_literal (pfx : String) (hp : literal pfx) :
    validPath pfx = some { prog := .seq .bot (litSeq pfx.data tailRe), numSubexp := 2 } := by
  unfold validPath MustCompile
  have hd : ("^" ++ pfx ++ "/(edit|save|view)/([a-zA-Z0-9]+)$").data =
      ['^'] ++ (pfx.data ++ "/(edit|save|view)/([a-zA-Z0-9]+)$".data) := by
    simp [String.data_append]
  rw [hd, run_append]
  have h0 : Parser.init.run ['^'] =
      some { top := { idx := 0, alts := [], items := [.bot] }, stack := [], ncap := 0,
             mode := .normal 0 } := rfl
  rw [h0]
  simp only [Option.bind]
  rw [run_append, run_literal pfx.data hp _ rfl]
  simp only [Option.bind]
  rw [run_suffix]
  simp only [Parser.finish, Frame.close, mkAlt, mkSeq, List.foldl_cons, List.foldl_nil,
    List.foldl_append, mkSeq_literal]
  rfl

/-! ## Matching the pattern of a prefix without operators -/

theorem run_lit_cons (a d : Char) (pos : Nat) (t : List Char) (caps : List (Nat × List Char)) :
    (Re.lit a).run ⟨pos, d :: t, caps⟩ = if d = a then [⟨pos + 1, t, caps⟩] else [] := by
  simp [Re.run, Cfg.next]

theorem run_lit_nil (a : Char) (pos : Nat) (caps : List (Nat × List Char)) :
    (Re.lit a).run ⟨pos, [], caps⟩ = [] := by
  simp [Re.run, Cfg.next]

theorem run_litSeq_append (P r : List Char) (T : Re) (pos : Nat) (caps : List (Nat × List Char)) :
    (litSeq P T).run ⟨pos, P ++ r, caps⟩ = T.run ⟨pos + P.length, r, caps⟩ := by
  induction P generalizing pos with
  | nil => rfl
  | cons a P ih =>
    have h : litSeq (a :: P) T = .seq (.lit a) (litSeq P T) := rfl
    rw [h, Re.run, List.cons_append, run_lit_cons]
    simp only [if_true, List.flatMap_cons, List.flatMap_nil, List.append_nil]
    rw [ih, List.length_cons, Nat.add_assoc, Nat.add_comm 1]

theorem mem_run_litSeq (P : List Char) (T : Re) (c c1 : Cfg) (h : c1 ∈ (litSeq P T).run c) :
    ∃ r, c.rest = P ++ r ∧ c1 ∈ T.run ⟨c.pos + P.length, r, c.caps⟩ := by
  induction P generalizing c with
  | nil => exact ⟨c.rest, rfl, h⟩
  | cons a P ih =>
    have hs : litSeq (a :: P) T = .seq (.lit a) (litSeq P T) := rfl
    rw [hs, Re.run, List.mem_flatMap] at h
    obtain ⟨c2, h2, h3⟩ := h
    obtain ⟨pos, rest, caps⟩ := c
    cases rest with
    | nil => simp [run_lit_nil] at h2
    | cons d t =>
      rw [run_lit_cons] at h2
      by_cases hd : d = a
      · simp only [hd, if_true, List.mem_singleton] at h2
        subst h2
        obtain ⟨r, hr, hm⟩ := ih _ h3
        refine ⟨r, ?_, ?_⟩
        · simp only at hr
          simp [hd, hr]
        · simpa [Nat.add_assoc, Nat.add_comm 1] using hm
      · simp [hd] at h2

theorem run_cls_cons (neg : Bool) (rs : List (Char × Char)) (d : Char) (pos : Nat)
    (t : List Char) (caps : List (Nat × List Char)) :
    (Re.cls neg rs).run ⟨pos, d :: t, caps⟩ =
      if inClass neg rs d = true then [⟨pos + 1, t, caps⟩] else [] := by
  simp [Re.run, Cfg.next]

theorem run_cls_nil (neg : Bool) (rs : List (Char × Char)) (pos : Nat)
    (caps : List (Nat × List Char)) : (Re.cls neg rs).run ⟨pos, [], caps⟩ = [] := by
  simp [Re.run, Cfg.next]

/-- The rest of a match of `x*`, for `x` a single character satisfying `ok`,
when what follows (`k`) only succeeds at the end of the text. -/
theorem loop_class_flatMap (ok : Char → Bool) (body k : Cfg → List Cfg)
    (hb1 : ∀ pos d t caps, body ⟨pos, d :: t, caps⟩ =
      if ok d = true then [⟨pos + 1, t, caps⟩] else [])
    (hb2 : ∀ pos caps, body ⟨pos, [], caps⟩ = [])
    (hk : ∀ x, x.rest ≠ [] → k x = [])
    (rest : List Char) (pos : Nat) (caps : List (Nat × List Char)) (n : Nat)
    (hn : rest.length < n) :
    (loop n true body ⟨pos, rest, caps⟩).flatMap k =
      if ∀ d ∈ rest, ok d = true then k ⟨pos + rest.length, [], caps⟩ else [] := by
  induction rest generalizing pos n with
  | nil =>
    cases n with
    | zero => simp at hn
    | succ m => simp [loop, hb2]
  | cons d t ih =>
    cases n with
    | zero => simp at hn
    | succ m =>
      have hm : t.length < m := by simpa using hn
      by_cases hd : ok d = true
      · simp only [loop, hb1, hd, if_true, List.flatMap_cons, List.flatMap_nil,
          List.append_nil, List.length_cons, Nat.lt_succ_self, List.flatMap_append]
        rw [ih (pos + 1) m hm, hk ⟨pos, d :: t, caps⟩ (by simp)]
        simp [hd, Nat.add_assoc, Nat.add_comm 1]
      · simp only [loop, hb1, hd, List.flatMap_cons, List.flatMap_nil,
          List.append_nil, List.nil_append, if_true, if_false, Bool.false_eq_true]
        rw [hk ⟨pos, d :: t, caps⟩ (by simp)]
        simp [hd]

theorem run_token (pos : Nat) (tok : List Char) (caps : List (Nat × List Char)) :
    tokenRe.run ⟨pos, tok, caps⟩ =
      if tok ≠ [] ∧ ∀ d ∈ tok, alnum d = true then [⟨pos + tok.length, [], (2, tok) :: caps⟩]
      else [] := by
  cases tok with
  | nil => simp [tokenRe, Re.run, Cfg.next]
  | cons d t =>
    by_cases hd : alnum d = true
    · have hd1 : inClass false [('a', 'z'), ('A', 'Z'), ('0', '9')] d = true := hd
      have hp : (Re.plus true (.cls false [('a', 'z'), ('A', 'Z'), ('0', '9')])).run
          ⟨pos, d :: t, caps⟩ =
          loop (t.length + 1) true
            (fun x => (Re.cls false [('a', 'z'), ('A', 'Z'), ('0', '9')]).run x)
            ⟨pos + 1, t, caps⟩ := by
        rw [Re.run, run_cls_cons, hd1]
        simp
      unfold tokenRe
      rw [Re.run, Re.run, Re.run, hp]
      simp only [List.flatMap_singleton', List.flatMap_map, Re.run]
      rw [loop_class_flatMap (inClass false [('a', 'z'), ('A', 'Z'), ('0', '9')])
        (fun x => x.next (inClass false [('a', 'z'), ('A', 'Z'), ('0', '9')])) _
        (by intros; simp [Cfg.next]) (by intros; simp [Cfg.next])
        _ t (pos + 1) caps (t.length + 1) (Nat.lt_succ_self _)]
      · by_cases ht : ∀ x ∈ t, alnum x = true
        · have ht1 : ∀ x ∈ t, inClass false [('a', 'z'), ('A', 'Z'), ('0', '9')] x = true := ht
          rw [if_pos ht1, if_pos ⟨by simp, List.forall_mem_cons.2 ⟨hd, ht⟩⟩]
          simp [Nat.add_assoc, Nat.add_comm 1]
        · have ht1 : ¬ ∀ x ∈ t, inClass false [('a', 'z'), ('A', 'Z'), ('0', '9')] x = true := ht
          rw [if_neg ht1, if_neg (fun h => ht (List.forall_mem_cons.1 h.2).2)]
      · intro x hx
        cases hr : x.rest with
        | nil => exact absurd hr hx
        | cons y ys => simp [hr]
    · have hd1 : inClass false [('a', 'z'), ('A', 'Z'), ('0', '9')] d = false := by
        simpa [alnum] using hd
      simp [tokenRe, Re.run, Cfg.next, hd1, hd]

theorem actions_length (a : String) (ha : a ∈ actions) : a.data.length = 4 := by
  simp only [actions, List.mem_cons, List.mem_singleton, List.not_mem_nil, or_false] at ha
  rcases ha with rfl | rfl | rfl <;> rfl

theorem run_action (a : String) (ha : a ∈ actions) (pos : Nat) (r : List Char)
    (caps : List (Nat × List Char)) :
    actionRe.run ⟨pos, a.data ++ r, caps⟩ = [⟨pos + 4, r, caps⟩] := by
  have he : "edit".data = ['e', 'd', 'i', 't'] := rfl
  have hs : "save".data = ['s', 'a', 'v', 'e'] := rfl
  have hv : "view".data = ['v', 'i', 'e', 'w'] := rfl
  simp only [actions, List.mem_cons, List.mem_singleton, List.not_mem_nil, or_false] at ha
  rcases ha with rfl | rfl | rfl <;>
    simp [actionRe, Re.run, litSeq, Cfg.next, he, hs, hv]

theorem mem_run_action (c c1 : Cfg) (h : c1 ∈ actionRe.run c) :
    ∃ a ∈ actions, c.rest = a.data ++ c1.rest := by
  unfold actionRe at h
  rw [Re.run, Re.run, List.mem_append, List.mem_append] at h
  rcases h with h | h | h
  · obtain ⟨r, hr, hm⟩ := mem_run_litSeq _ _ _ _ h
    simp only [Re.run, List.mem_singleton] at hm
    exact ⟨"edit", by simp [actions], by rw [hr, hm]⟩
  · obtain ⟨r, hr, hm⟩ := mem_run_litSeq _ _ _ _ h
    simp only [Re.run, List.mem_singleton] at hm
    exact ⟨"save", by simp [actions], by rw [hr, hm]⟩
  · obtain ⟨r, hr, hm⟩ := mem_run_litSeq _ _ _ _ h
    simp only [Re.run, List.mem_singleton] at hm
    exact ⟨"view", by simp [actions], by rw [hr, hm]⟩

theorem run_tail (a : String) (ha : a ∈ actions) (tok : List Char) (h0 : tok ≠ [])
    (h1 : ∀ d ∈ tok, alnum d = true) (pos : Nat) (caps : List (Nat × List Char)) :
    tailRe.run ⟨pos, '/' :: (a.data ++ '/' :: tok), caps⟩ =
      [⟨pos + 1 + 4 + 1 + tok.length, [], (2, tok) :: (1, a.data) :: caps⟩] := by
  unfold tailRe
  rw [Re.run, run_lit_cons, if_pos rfl, List.flatMap_singleton, Re.run, Re.run, run_action a ha,
    List.map_singleton, List.flatMap_singleton, Re.run, run_lit_cons, if_pos rfl,
    List.flatMap_singleton, run_token, if_pos ⟨h0, h1⟩]
  have hl := actions_length a ha
  have ht : List.take (pos + 1 + 4 - (pos + 1)) (a.data ++ '/' :: tok) = a.data := by
    rw [Nat.add_sub_cancel_left, ← hl, List.take_left]
  simp only [ht]

theorem mem_run_tail (c c1 : Cfg) (h : c1 ∈ tailRe.run c) :
    ∃ a ∈ actions, ∃ tok : List Char, tok ≠ [] ∧ (∀ d ∈ tok, alnum d = true) ∧
      c.rest = '/' :: (a.data ++ '/' :: tok) := by
  obtain ⟨pos, rest, caps⟩ := c
  unfold tailRe at h
  rw [Re.run, List.mem_flatMap] at h
  obtain ⟨c2, h2, h⟩ := h
  cases rest with
  | nil => simp [run_lit_nil] at h2
  | cons d t =>
    rw [run_lit_cons] at h2
    by_cases hd : d = '/'
    · simp only [hd, if_true, List.mem_singleton] at h2
      subst h2
      rw [Re.run, List.mem_flatMap] at h
      obtain ⟨c3, h3, h⟩ := h
      rw [Re.run, List.mem_map] at h3
      obtain ⟨c4, h4, rfl⟩ := h3
      obtain ⟨a, ha, hr⟩ := mem_run_action _ _ h4
      rw [Re.run, List.mem_flatMap] at h
      obtain ⟨c5, h5, h⟩ := h
      obtain ⟨p4, r4, k4⟩ := c4
      cases r4 with
      | nil => simp [run_lit_nil] at h5
      | cons e u =>
        rw [run_lit_cons] at h5
        by_cases he : e = '/'
        · simp only [he, if_true, List.mem_singleton] at h5
          subst h5
          rw [run_token] at h
          by_cases hu : u ≠ [] ∧ ∀ d ∈ u, alnum d = true
          · refine ⟨a, ha, u, hu.1, hu.2, ?_⟩
            simp only at hr
            simp [hd, hr, he]
          · simp [if_neg hu] at h
        · simp [he] at h5
    · simp [hd] at h2

theorem search_bot (X : Re) (n : Nat) (l : List Char) (pos : Nat) :
    Regexp.search ⟨.seq .bot X, n⟩ (pos + 1) l = none := by
  induction l generalizing pos with
  | nil => simp [Regexp.search, Re.run]
  | cons d t ih => simp [Regexp.search, Re.run, ih]

theorem find_bot (X : Re) (n : Nat) (s : String) :
    Regexp.FindStringSubmatch ⟨.seq .bot X, n⟩ s =
      match (X.run ⟨0, s.data, []⟩).head? with
      | some c1 => some (String.mk (s.data.take c1.pos) ::
          (List.range n).map fun i => group c1.caps (i + 1))
      | none => none := by
  unfold Regexp.FindStringSubmatch
  cases hs : s.data with
  | nil =>
    simp only [Regexp.search, Re.run, if_true, List.flatMap_singleton]
    cases (X.run ⟨0, [], []⟩).head? <;> simp
  | cons d t =>
    simp only [Regexp.search, Re.run, if_true, List.flatMap_singleton, search_bot]
    cases (X.run ⟨0, d :: t, []⟩).head? <;> simp

theorem path_data (pfx a t : String) :
    (pfx ++ "/" ++ a ++ "/" ++ t).data = pfx.data ++ '/' :: (a.data ++ '/' :: t.data) := by
  have h : "/".data = ['/'] := rfl
  simp [String.data_append, h]

/-- With a prefix free of operators, a path prefix + "/" + action + "/" + token is
matched whole, with the action and the token in the two groups. -/
theorem find_literal_match (pfx a t : String) (hp : literal pfx) (ha : a ∈ actions)
    (ht : isTitle t) (re : Regexp) (hre : validPath pfx = some re) :
    re.FindStringSubmatch (pfx ++ "/" ++ a ++ "/" ++ t) =
      some [pfx ++ "/" ++ a ++ "/" ++ t, a, t] := by
  rw [validPath_literal pfx hp] at hre
  cases hre
  rw [find_bot, path_data, run_litSeq_append, run_tail a ha t.data ht.1 ht.2]
  have hl := actions_length a ha
  have hk : List.take (0 + pfx.data.length + 1 + 4 + 1 + t.data.length)
      (pfx.data ++ '/' :: (a.data ++ '/' :: t.data)) =
      pfx.data ++ '/' :: (a.data ++ '/' :: t.data) := by
    apply List.take_of_length_le
    simp [hl]
    omega
  simp only [List.head?_cons, hk]
  have hd : String.mk (pfx.data ++ '/' :: (a.data ++ '/' :: t.data)) =
      pfx ++ "/" ++ a ++ "/" ++ t := by
    apply String.ext
    rw [path_data]
  rw [hd]
  simp [List.range_succ, group]

/-- With a prefix free of operators, only the paths prefix + "/" + action + "/" + token
are matched. -/
theorem find_literal_some (pfx path : String) (hp : literal pfx) (re : Regexp)
    (hre : validPath pfx = some re) (m : List String)
    (hm : re.FindStringSubmatch path = some m) :
    ∃ a t, a ∈ actions ∧ isTitle t ∧ path = pfx ++ "/" ++ a ++ "/" ++ t := by
  rw [validPath_literal pfx hp] at hre
  cases hre
  rw [find_bot] at hm
  cases hh : (Re.run (litSeq pfx.data tailRe) ⟨0, path.data, []⟩).head? with
  | none => simp [hh] at hm
  | some c1 =>
    have hmem := List.mem_of_mem_head? hh
    obtain ⟨r, hr, hc⟩ := mem_run_litSeq _ _ _ _ hmem
    obtain ⟨a, ha, tok, h0, h1, h2⟩ := mem_run_tail _ _ hc
    refine ⟨a, String.mk tok, ha, ⟨h0, h1⟩, ?_⟩
    apply String.ext
    rw [path_data]
    simp only at hr h2
    rw [hr, h2]

theorem literal_empty : literal "" := by
  decide

/-- The wrapper under a prefix free of operators: it runs the handler, on the
token, for the paths prefix + "/" + action + "/" + token, and answers 404
without running it for every other path. -/
theorem makeHandler_literal (pfx : String) (hp : literal pfx) (re : Regexp)
    (hre : validPath pfx = some re) (fn : PageHandler) (fs : FileSystem) (w : ResponseWriter)
    (r : Request) :
    (∀ a t, a ∈ actions → isTitle t → r.Path = pfx ++ "/" ++ a ++ "/" ++ t →
      makeHandler re fn fs w r = some (fn fs w r t)) ∧
    ((¬ ∃ a t, a ∈ actions ∧ isTitle t ∧ r.Path = pfx ++ "/" ++ a ++ "/" ++ t) →
      makeHandler re fn fs w r = some (fs, httpError w r.Path StatusNotFound)) := by
  constructor
  · intro a t ha ht hpath
    unfold makeHandler
    rw [hpath, find_literal_match pfx a t hp ha ht re hre]
    rfl
  · intro hno
    unfold makeHandler
    cases hm : re.FindStringSubmatch r.Path with
    | none => rfl
    | some m => exact absurd (find_literal_some pfx r.Path hp re hre m hm) hno

/-- The answer of the wrapper on a path in which the compiled pattern finds
nothing: status 404 and the path as body, whatever handler is wrapped. -/
theorem makeHandler_no_match (re : Regexp) (fn : PageHandler) (fs : FileSystem) (r : Request)
    (hm : re.FindStringSubmatch r.Path = none) :
    makeHandler re fn fs .fresh r =
      some (fs, { code := some 404, location := none, body := r.Path ++ "\n",
                  executed := [] }) := by
  unfold makeHandler
  rw [hm]
  simp [httpError_fresh, StatusNotFound]

/-! ## Dispatch by route -/

theorem isPrefixOf_append (p a b : List Char) :
    (p ++ a).isPrefixOf (p ++ b) = a.isPrefixOf b := by
  induction p with
  | nil => rfl
  | cons c p ih => simp [ih]

theorem HasPrefix_route (pfx a t s : String) :
    HasPrefix (pfx ++ "/" ++ a ++ "/" ++ t) (pfx ++ s) =
      s.data.isPrefixOf ('/' :: (a.data ++ '/' :: t.data)) := by
  unfold HasPrefix
  rw [path_data, String.data_append, isPrefixOf_append]

/-- The mux hands a path prefix + "/" + action + "/" + token to the handler
registered for that action, whatever the prefix. -/
theorem Handler_route (pfx a t : String) (ha : a ∈ actions) :
    ServeMux.Handler (registrations pfx) (pfx ++ "/" ++ a ++ "/" ++ t) = some (routeOf a) := by
  have hv : "/view/".data = ['/', 'v', 'i', 'e', 'w', '/'] := rfl
  have he : "/edit/".data = ['/', 'e', 'd', 'i', 't', '/'] := rfl
  have hs : "/save/".data = ['/', 's', 'a', 'v', 'e', '/'] := rfl
  have dv : "view".data = ['v', 'i', 'e', 'w'] := rfl
  have de : "edit".data = ['e', 'd', 'i', 't'] := rfl
  have ds : "save".data = ['s', 'a', 'v', 'e'] := rfl
  have lv : "/view/".length = 6 := rfl
  have le : "/edit/".length = 6 := rfl
  have ls : "/save/".length = 6 := rfl
  have l1 : "/".length = 1 := rfl
  simp only [actions, List.mem_cons, List.mem_singleton, List.not_mem_nil, or_false] at ha
  rcases ha with rfl | rfl | rfl
  · cases h : HasPrefix (pfx ++ "/" ++ "view" ++ "/" ++ t) "/" <;>
      simp [ServeMux.Handler, registrations, HasPrefix_route, h, hv, he, hs, dv, de, ds, lv, le,
        ls, l1, routeOf, String.length_append]
  · cases h : HasPrefix (pfx ++ "/" ++ "edit" ++ "/" ++ t) "/" <;>
      simp [ServeMux.Handler, registrations, HasPrefix_route, h, hv, he, hs, dv, de, ds, lv, le,
        ls, l1, routeOf, String.length_append]
  · cases h : HasPrefix (pfx ++ "/" ++ "save" ++ "/" ++ t) "/" <;>
      simp [ServeMux.Handler, registrations, HasPrefix_route, h, hv, he, hs, dv, de, ds, lv, le,
        ls, l1, routeOf, String.length_append]

/-- The server under a prefix free of operators: a request for
prefix + "/" + action + "/" + token runs the handler bound to the action, on the token. -/
theorem ServeHTTP_literal (cfg : Config) (hp : literal cfg.pfx) (re : Regexp)
    (hre : validPath cfg.pfx = some re) (a t : String) (ha : a ∈ actions) (ht : isTitle t)
    (fs : FileSystem) (form : List (String × Bytes)) :
    ServeHTTP cfg re fs { Path := cfg.pfx ++ "/" ++ a ++ "/" ++ t, Form := form } =
      some (handlerOf cfg a fs .fresh
        { Path := cfg.pfx ++ "/" ++ a ++ "/" ++ t, Form := form } t) := by
  unfold ServeHTTP
  rw [Handler_route cfg.pfx a t ha]
  simp only [actions, List.mem_cons, List.mem_singleton, List.not_mem_nil, or_false] at ha
  rcases ha with rfl | rfl | rfl
  · exact (makeHandler_literal cfg.pfx hp re hre _ fs .fresh _).1 "view" t (by simp [actions])
      ht rfl
  · exact (makeHandler_literal cfg.pfx hp re hre _ fs .fresh _).1 "edit" t (by simp [actions])
      ht rfl
  · exact (makeHandler_literal cfg.pfx hp re hre _ fs .fresh _).1 "save" t (by simp [actions])
      ht rfl

/-- A path under none of the three routes goes to `notFoundHandler`, which
answers 500 with the path as body and leaves the file system as it is. -/
theorem ServeHTTP_other (cfg : Config) (re : Regexp) (fs : FileSystem) (r : Request)
    (hv : HasPrefix r.Path (cfg.pfx ++ "/view/") = false)
    (he : HasPrefix r.Path (cfg.pfx ++ "/edit/") = false)
    (hs : HasPrefix r.Path (cfg.pfx ++ "/save/") = false)
    (h1 : HasPrefix r.Path "/" = true) :
    ServeHTTP cfg re fs r =
      some (fs, { code := some 500, location := none, body := r.Path ++ "\n",
                  executed := [] }) := by
  simp [ServeHTTP, ServeMux.Handler, registrations, hv, he, hs, h1, notFoundHandler,
    httpError_fresh, StatusInternalServerError]

/-! ## The wrapper and the dispatch at concrete prefixes -/

/-- C2 (path grammar), evaluated where it fails: the prefix is spliced into
the pattern unquoted, so its characters act as operators.  With prefix `/a+`
the path `/a+/view/foo`, which is prefix + "/view/" + token, is answered 404
without running the handler; with prefix `/my.wiki` the path
`/myXwiki/view/foo`, which does not begin with the prefix, runs the handler
with title `foo`; with prefix `/a|q/x` the path `/a` runs the handler with the
empty title. -/
theorem makeHandler_prefix_as_pattern :
    (∃ re, validPath "/a+" = some re ∧
      "/a+/view/foo" = "/a+" ++ "/" ++ "view" ++ "/" ++ "foo" ∧
      ∀ (fn : PageHandler) (fs : FileSystem),
        makeHandler re fn fs .fresh { Path := "/a+/view/foo", Form := [] } =
          some (fs, { code := some 404, location := none, body := "/a+/view/foo\n",
                      executed := [] })) ∧
    (∃ re, validPath "/my.wiki" = some re ∧
      HasPrefix "/myXwiki/view/foo" "/my.wiki" = false ∧
      ∀ (fn : PageHandler) (fs : FileSystem),
        makeHandler re fn fs .fresh { Path := "/myXwiki/view/foo", Form := [] } =
          some (fn fs .fresh { Path := "/myXwiki/view/foo", Form := [] } "foo")) ∧
    (∃ re, validPath "/a|q/x" = some re ∧
      ∀ (fn : PageHandler) (fs : FileSystem),
        makeHandler re fn fs .fresh { Path := "/a", Form := [] } =
          some (fn fs .fresh { Path := "/a", Form := [] } "")) :=
  ⟨⟨_, rfl, by decide, fun _ _ => rfl⟩, ⟨_, rfl, by decide, fun _ _ => rfl⟩,
   ⟨_, rfl, fun _ _ => rfl⟩⟩

theorem bad_title_outside_grammar :
    ¬ ∃ a t, a ∈ actions ∧ isTitle t ∧
      "/a|q/x/save/bad!title" = "/a|q/x" ++ "/" ++ a ++ "/" ++ t := by
  rintro ⟨a, t, ha, ht, h⟩
  have hd := congrArg String.data h
  rw [path_data] at hd
  have h1 : "/a|q/x/save/bad!title".data =
      "/a|q/x".data ++ '/' :: ("save".data ++ '/' :: "bad!title".data) := rfl
  rw [h1] at hd
  have h2 := List.append_cancel_left hd
  have dv : "view".data = ['v', 'i', 'e', 'w'] := rfl
  have de : "edit".data = ['e', 'd', 'i', 't'] := rfl
  have ds : "save".data = ['s', 'a', 'v', 'e'] := rfl
  simp only [actions, List.mem_cons, List.mem_singleton, List.not_mem_nil, or_false] at ha
  rcases ha with rfl | rfl | rfl
  · simp [dv, ds] at h2
  · simp [de, ds] at h2
  · simp only [ds, List.cons_append, List.nil_append, List.cons.injEq, true_and] at h2
    have hb : alnum '!' = true := ht.2 '!' (by rw [← h2]; decide)
    exact absurd hb (by decide)

/-- C3 (router rejection), evaluated where it fails: with prefix `/a|q/x` the
path `/a|q/x/save/bad!title` is not prefix + "/" + action + "/" + token for any
token in `[a-zA-Z0-9]+` (its token has a `!`).  It begins with the registered
route prefix + "/save/", and the compiled pattern, in which `|` of the prefix
is an alternation, matches its first two characters with both groups empty.
The wrapper therefore runs the handler it wraps, with the empty title; on the
server `saveHandler` writes the form body to `pages/.txt` and answers 302 with
`Location` `/a|q/x/view/`, where a 404 and an untouched store were due. -/
theorem makeHandler_runs_on_bad_title :
    (¬ ∃ a t, a ∈ actions ∧ isTitle t ∧
      "/a|q/x/save/bad!title" = "/a|q/x" ++ "/" ++ a ++ "/" ++ t) ∧
    ServeMux.Handler (registrations "/a|q/x") "/a|q/x/save/bad!title" = some .save ∧
    ∃ re, validPath "/a|q/x" = some re ∧
      re.FindStringSubmatch "/a|q/x/save/bad!title" = some ["/a", "", ""] ∧
      (∀ (fn : PageHandler) (fs : FileSystem),
        makeHandler re fn fs .fresh { Path := "/a|q/x/save/bad!title", Form := [] } =
          some (fn fs .fresh { Path := "/a|q/x/save/bad!title", Form := [] } "")) ∧
      (diskOf []).files "pages/.txt" = none ∧
      ∀ t : Templates,
        (ServeHTTP { pfx := "/a|q/x", templates := t } re (diskOf [])
          { Path := "/a|q/x/save/bad!title", Form := [("body", [72])] }).map
          (fun out => (out.1.files "pages/.txt", out.2)) =
          some (some [72], { code := some 302, location := some "/a|q/x/view/", body := "",
                             executed := [] }) :=
  ⟨bad_title_outside_grammar, by decide, _, rfl, by decide, fun _ _ => rfl, rfl,
   fun _ => rfl⟩

/-- C7 (requests outside the three routes), evaluated: `notFoundHandler`
answers every request with status 500, not 404, and the path and a newline as
body; with the empty prefix the path `/nothing` is dispatched to it, the
file system is left as it is and the status sent is 500. -/
theorem notFoundHandler_status :
    (∀ r : Request, notFoundHandler .fresh r =
      { code := some 500, location := none, body := r.Path ++ "\n", executed := [] }) ∧
    ServeMux.Handler (registrations "") "/nothing" = some .notFound ∧
    ∃ re, validPath "" = some re ∧
      ∀ (t : Templates) (fs : FileSystem),
        ServeHTTP { pfx := "", templates := t } re fs { Path := "/nothing", Form := [] } =
          some (fs, { code := some 500, location := none, body := "/nothing\n",
                      executed := [] }) :=
  ⟨fun r => by simp [notFoundHandler, httpError_fresh, StatusInternalServerError],
   by decide, _, rfl, fun _ _ => rfl⟩

/-- C9 (handler bound to the action), evaluated where it fails: with prefix
`/.*` the path `/.*/view/edit/foo` begins with the registered route
prefix + "/view/", so the mux hands it to the wrapper of `viewHandler`; the
pattern accepts it with the action group holding `edit`, and `viewHandler` runs
on the title `foo`. -/
theorem view_runs_for_captured_edit :
    ServeMux.Handler (registrations "/.*") "/.*/view/edit/foo" = some .view ∧
    ∃ re, validPath "/.*" = some re ∧
      re.FindStringSubmatch "/.*/view/edit/foo" = some ["/.*/view/edit/foo", "edit", "foo"] ∧
      ∀ (t : Templates) (fs : FileSystem),
        ServeHTTP { pfx := "/.*", templates := t } re fs
          { Path := "/.*/view/edit/foo", Form := [] } =
          some (viewHandler { pfx := "/.*", templates := t } fs .fresh
            { Path := "/.*/view/edit/foo", Form := [] } "foo") :=
  ⟨by decide, _, rfl, by decide, fun _ _ => rfl⟩

end Wiki
